import Mathlib

/-!
Verification of the insight discovery/enqueue background routine
(`discoverAndEnqueueInsights`, `withCountUnlimited`, `queryJobOffsetTime`
from the Go part of `src/app/web_modules/sourcegraph/app/features.tsx`,
package `background`) and of the per-queue backlog gauge registration in
`src/enterprise/cmd/executor-queue/main.go`.

The Go code is embedded shallowly: the mutable loop state of the discovery
pass becomes an explicit `PassState` record threaded through a recursion
that mirrors the two nested `for` loops; the `emit` callback
(`enqueueQueryRunnerJob`) is a parameter returning `Option String`
(`none` = nil error); timestamps and durations are naturals counted in
seconds, and the `float64` gauge value is modelled as the integer count it
converts.
-/

namespace SG

/-! ## String containment, mirroring Go `strings.Contains` -/

/-- Tests whether `pat` is an initial segment of the second list
(character-wise), mirroring the prefix test inside Go `strings.Contains`. -/
def leadMatch : List Char → List Char → Bool
  | [], _ => true
  | _ :: _, [] => false
  | a :: as, b :: bs => a == b && leadMatch as bs

/-- Tests whether `pat` occurs contiguously somewhere in the second list. -/
def hasSub (pat : List Char) : List Char → Bool
  | [] => leadMatch pat []
  | c :: rest => leadMatch pat (c :: rest) || hasSub pat rest

/-- Embedding of Go `strings.Contains(s, sub)`. -/
def goContains (s sub : String) : Bool :=
  hasSub sub.data s.data

/-- Number of positions of the second list (including the final empty
position) at which `pat` matches; counts the occurrences of a substring. -/
def subCount (pat : List Char) : List Char → Nat
  | [] => if leadMatch pat [] then 1 else 0
  | c :: rest => (if leadMatch pat (c :: rest) then 1 else 0) + subCount pat rest

/-- Number of occurrences (match positions) of `sub` inside `s`. -/
def occurrenceCount (s sub : String) : Nat :=
  subCount sub.data s.data

/-! ## The normalization `withCountUnlimited` (features.tsx, Go part, lines 161-166) -/

/-- Embedding of `withCountUnlimited`: adds `count:9999999` to the given
search query string iff `count:` does not exist in the query string. -/
def withCountUnlimited (s : String) : String :=
  if goContains s "count:" then s else s ++ " count:9999999"

/-! ## Data model of the discovery pass -/

/-- A series of an insight; the Go loop reads only `series.Query`, the name
field records that a series also carries presentation data that is not part
of its semantic content. -/
structure TimeSeries where
  name : String
  query : String
  deriving DecidableEq, Repr

/-- An insight owning one or more series (an element of `foundInsights`). -/
structure Insight where
  title : String
  series : List TimeSeries
  deriving DecidableEq, Repr

/-- Modelled from the spec: `discovery.Encode` is not under `src/`; the spec
describes the identity as a "stable content-derived key" of the series
(`identity = contentHash(series)`), the series' semantic content being its
query. We model it as an injective encoding of the raw query content.
Note that the source passes the raw series to `Encode` and applies
`withCountUnlimited` only to the emitted payload; `withCountUnlimited` is
unexported from package `background`, so `discovery.Encode` cannot apply it. -/
def Encode (series : TimeSeries) : String :=
  "s:" ++ series.query

/-- Modelled from the spec: the constants of the internal `priority` package
(`priority.High`, `priority.Indexed`) are not under `src/`; the spec says only
that `priority` is an integer (lower dequeued first) and `cost` an
informational integer. No claim depends on the concrete values. -/
def priorityHigh : Int := 1

/-- Modelled from the spec: see `priorityHigh`. -/
def priorityIndexed : Int := 1

/-- The constant `queryJobOffsetTime = 30 * time.Second` (features.tsx, Go
part, line 99), counted here in seconds. -/
def queryJobOffsetTime : Nat := 30

/-- The `queryrunner.Job` fields set by the discovery pass; `processAfter`
is a timestamp in seconds. -/
structure Job where
  seriesID : String
  searchQuery : String
  processAfter : Nat
  state : String
  priority : Int
  cost : Int
  deriving DecidableEq, Repr

/-- The job literal built in the loop body of `discoverAndEnqueueInsights`. -/
def mkJob (now : Nat) (offset : Nat) (seriesID : String) (series : TimeSeries) : Job :=
  { seriesID := seriesID
    searchQuery := withCountUnlimited series.query
    processAfter := now + offset
    state := "queued"
    priority := priorityHigh
    cost := priorityIndexed }

/-- The mutable state of one discovery pass: the keys of the `uniqueSeries`
map in insertion order, the aggregated `multi` error as the list of appended
error messages, the cumulative `offset`, the trace of jobs passed to the emit
callback, and `lastErr`, which models the Go variable `err` that is shared
across loop iterations (it is checked at the top of the loop body and is
reassigned by each emit call). -/
structure PassState where
  uniqueSeries : List String
  multi : List String
  offset : Nat
  emitted : List Job
  lastErr : Option String
  deriving DecidableEq, Repr

/-- The state at the start of the pass. -/
def initState : PassState :=
  { uniqueSeries := [], multi := [], offset := 0, emitted := [], lastErr := none }

/-- One iteration of the inner loop body of `discoverAndEnqueueInsights`.
The source first computes `seriesID := discovery.Encode(series)`, then checks
`if err != nil` on the loop-shared `err` variable (appending it to `multi` and
continuing), then performs the duplicate check, then records the identity,
advances the offset, builds and emits the job, and appends any emit error to
`multi`. -/
def processSeries (now : Nat) (emit : Job → Option String)
    (st : PassState) (series : TimeSeries) : PassState :=
  match st.lastErr with
  | some e => { st with multi := st.multi ++ [e] }
  | none =>
    if st.uniqueSeries.contains (Encode series) then st
    else
      let job := mkJob now st.offset (Encode series) series
      let st1 : PassState :=
        { uniqueSeries := st.uniqueSeries ++ [Encode series]
          multi := st.multi
          offset := st.offset + queryJobOffsetTime
          emitted := st.emitted ++ [job]
          lastErr := none }
      match emit job with
      | none => st1
      | some e => { st1 with multi := st1.multi ++ [e], lastErr := some e }

/-- The inner `for _, series := range insight.Series` loop. -/
def runSeriesList (now : Nat) (emit : Job → Option String) :
    PassState → List TimeSeries → PassState
  | st, [] => st
  | st, s :: rest => runSeriesList now emit (processSeries now emit st s) rest

/-- The outer `for _, insight := range foundInsights` loop. -/
def runInsights (now : Nat) (emit : Job → Option String) :
    PassState → List Insight → PassState
  | st, [] => st
  | st, insight :: rest =>
      runInsights now emit (runSeriesList now emit st insight.series) rest

/-- Observable outcome of one call to `discoverAndEnqueueInsights`:
`wrapped` is the wrapped `Discover` error of the early return (if any),
`emitted` the trace of jobs passed to the emit callback, and `multi` the
aggregated error list returned at the end of the pass (empty = nil error). -/
structure RunResult where
  wrapped : Option String
  emitted : List Job
  multi : List String
  deriving DecidableEq, Repr

/-- Embedding of `discoverAndEnqueueInsights` (features.tsx, Go part,
lines 103-153). The outcome of `discovery.Discover` is an input
(`discoverResult`); on failure the pass returns the wrapped error having made
no emit call, otherwise it runs the nested loops from the initial state. -/
def discoverAndEnqueueInsights (now : Nat)
    (discoverResult : Except String (List Insight))
    (emit : Job → Option String) : RunResult :=
  match discoverResult with
  | .error e => { wrapped := some ("Discover: " ++ e), emitted := [], multi := [] }
  | .ok foundInsights =>
      let st := runInsights now emit initState foundInsights
      { wrapped := none, emitted := st.emitted, multi := st.multi }

/-- Invariant of the discovery pass state: the keys of the uniqueness map are
exactly the identities of the emitted jobs (in order) and carry no duplicate;
the cumulative offset equals the emit count times the stride; the emitted
process-after stamps follow the stride schedule; and every emission error is
recorded in the aggregated error list. -/
def PassInv (now : Nat) (emit : Job → Option String) (st : PassState) : Prop :=
  st.uniqueSeries = st.emitted.map Job.seriesID
  ∧ st.uniqueSeries.Nodup
  ∧ st.offset = st.emitted.length * queryJobOffsetTime
  ∧ st.emitted.map Job.processAfter
      = (List.range st.emitted.length).map (fun i => now + i * queryJobOffsetTime)
  ∧ (∀ job ∈ st.emitted, ∀ e, emit job = some e → e ∈ st.multi)

/-! ## Concrete emit callbacks and definition-source contents used in
concrete runs -/

/-- An emit callback whose every call succeeds (store accepts every record). -/
def emitOk : Job → Option String := fun _ => none

/-- An emit callback whose every call fails with the store's duplicate
rejection error. -/
def emitDup : Job → Option String := fun _ => some "DuplicateError"

/-- An emit callback that fails (with a generic store error) exactly on the
series whose identity is `s:q1` and succeeds on every other record. -/
def emitFailQ1 : Job → Option String :=
  fun j => if j.seriesID = "s:q1" then some "boom" else none

/-- An emit callback whose every call fails with a generic store error. -/
def emitFailAll : Job → Option String := fun _ => some "enqueue failed"

/-- A definition source yielding one insight with five series with pairwise
distinct queries (the offset-spreading scenario of the spec). -/
def fiveSeriesInsights : List Insight :=
  [⟨"I", [⟨"a", "q1"⟩, ⟨"b", "q2"⟩, ⟨"c", "q3"⟩, ⟨"d", "q4"⟩, ⟨"e", "q5"⟩]⟩]

/-- The spec's dedup scenario: two insights with different titles, each owning
one series with identical content `lang:go`. -/
def dedupScenarioInsights : List Insight :=
  [⟨"A", [⟨"s", "lang:go"⟩]⟩, ⟨"B", [⟨"s", "lang:go"⟩]⟩]

/-- Two insights whose series have raw queries that differ but normalize to
the same string under `withCountUnlimited`. -/
def normalizeCollisionInsights : List Insight :=
  [⟨"A", [⟨"s", "lang:go"⟩]⟩, ⟨"B", [⟨"s", "lang:go count:9999999"⟩]⟩]

/-- Two insights, each owning one series, with distinct identities; used to
exercise the behavior of the pass after a first emission failure. -/
def twoSeriesInsights : List Insight :=
  [⟨"i1", [⟨"a", "q1"⟩]⟩, ⟨"i2", [⟨"b", "q2"⟩]⟩]

/-! ## Per-queue backlog gauges (`executor-queue/main.go`, lines 81-98) -/

/-- A queue store, observed through the result its `QueuedCount` method
returns: a count and a possible error (`none` = nil). -/
structure QueueStore where
  queuedCountResult : Int × Option String
  deriving DecidableEq, Repr

/-- The result of `store.QueuedCount(ctx, nil)`. -/
def queuedCount (store : QueueStore) : Int × Option String :=
  store.queuedCountResult

/-- A registered gauge: its metric name, help text, the constant `queue`
label, and the store captured by its sampling closure. -/
structure Gauge where
  name : String
  help : String
  queueLabel : String
  store : QueueStore
  deriving DecidableEq, Repr

/-- The `prometheus.NewGaugeFunc` literal registered for one queue. -/
def newBacklogGauge (queueName : String) (store : QueueStore) : Gauge :=
  { name := "src_executor_total"
    help := "Total number of jobs in the queued state."
    queueLabel := queueName
    store := store }

/-- The registration loop `for queueName, options := range queueOptions`:
one gauge per configured queue. -/
def registerQueueGauges (queueOptions : List (String × QueueStore)) : List Gauge :=
  queueOptions.map fun qo => newBacklogGauge qo.1 qo.2

/-- The gauge's sampling closure: calls `QueuedCount`, logs on error (second
component: emitted log lines), and returns `float64(count)` (modelled as the
integer count) in every case. -/
def sampleBacklogGauge (g : Gauge) : Int × List String :=
  match queuedCount g.store with
  | (count, some e) =>
      (count, ["Failed to get queued job count queue=" ++ g.queueLabel ++ " error=" ++ e])
  | (count, none) => (count, [])

/-! ## Helper lemmas about string containment -/

theorem hasSub_append_right (pat l₁ l₂ : List Char) (h : hasSub pat l₂ = true) :
    hasSub pat (l₁ ++ l₂) = true := by
  induction l₁ with
  | nil => exact h
  | cons a t ih => simp [hasSub, ih]

theorem contains_withCountUnlimited (s : String) :
    goContains (withCountUnlimited s) "count:" = true := by
  unfold withCountUnlimited
  by_cases h : goContains s "count:" = true
  · rw [if_pos h]
    exact h
  · simp only [h, Bool.false_eq_true, if_false]
    show hasSub "count:".data ((s ++ " count:9999999").data) = true
    rw [show (s ++ " count:9999999").data = s.data ++ " count:9999999".data from rfl]
    exact hasSub_append_right _ _ _ (by decide)

theorem withCountUnlimited_of_contains (s : String)
    (h : goContains s "count:" = true) : withCountUnlimited s = s := by
  simp [withCountUnlimited, h]

/-! ## Helper lemmas: branch equations of `processSeries` -/

theorem processSeries_err (now : Nat) (emit : Job → Option String)
    (st : PassState) (series : TimeSeries) (e0 : String) (h : st.lastErr = some e0) :
    processSeries now emit st series = { st with multi := st.multi ++ [e0] } := by
  unfold processSeries
  rw [h]

theorem processSeries_dup (now : Nat) (emit : Job → Option String)
    (st : PassState) (series : TimeSeries) (h : st.lastErr = none)
    (hc : st.uniqueSeries.contains (Encode series) = true) :
    processSeries now emit st series = st := by
  unfold processSeries
  rw [h]
  simp only [hc, if_true]

theorem processSeries_emit_ok (now : Nat) (emit : Job → Option String)
    (st : PassState) (series : TimeSeries) (h : st.lastErr = none)
    (hc : ¬ st.uniqueSeries.contains (Encode series) = true)
    (hemit : emit (mkJob now st.offset (Encode series) series) = none) :
    processSeries now emit st series =
      { uniqueSeries := st.uniqueSeries ++ [Encode series]
        multi := st.multi
        offset := st.offset + queryJobOffsetTime
        emitted := st.emitted ++ [mkJob now st.offset (Encode series) series]
        lastErr := none } := by
  unfold processSeries
  rw [h]
  simp only [hc, if_false]
  rw [hemit]
  rfl

theorem processSeries_emit_fail (now : Nat) (emit : Job → Option String)
    (st : PassState) (series : TimeSeries) (e1 : String) (h : st.lastErr = none)
    (hc : ¬ st.uniqueSeries.contains (Encode series) = true)
    (hemit : emit (mkJob now st.offset (Encode series) series) = some e1) :
    processSeries now emit st series =
      { uniqueSeries := st.uniqueSeries ++ [Encode series]
        multi := st.multi ++ [e1]
        offset := st.offset + queryJobOffsetTime
        emitted := st.emitted ++ [mkJob now st.offset (Encode series) series]
        lastErr := some e1 } := by
  unfold processSeries
  rw [h]
  simp only [hc, if_false]
  rw [hemit]
  rfl

/-! ## Helper lemmas: the pass invariant is established and preserved -/

theorem passInv_init (now : Nat) (emit : Job → Option String) :
    PassInv now emit initState := by
  simp [PassInv, initState]

theorem passInv_processSeries (now : Nat) (emit : Job → Option String)
    (st : PassState) (series : TimeSeries) (h : PassInv now emit st) :
    PassInv now emit (processSeries now emit st series) := by
  obtain ⟨h1, h2, h3, h4, h5⟩ := h
  cases hl : st.lastErr with
  | some e0 =>
      rw [processSeries_err now emit st series e0 hl]
      exact ⟨h1, h2, h3, h4, fun job hj e he => List.mem_append_left _ (h5 job hj e he)⟩
  | none =>
      by_cases hc : st.uniqueSeries.contains (Encode series) = true
      · rw [processSeries_dup now emit st series hl hc]
        exact ⟨h1, h2, h3, h4, h5⟩
      · have hnotmem : Encode series ∉ st.uniqueSeries := by simpa using hc
        have hid : (mkJob now st.offset (Encode series) series).seriesID
            = Encode series := rfl
        have hpa : (mkJob now st.offset (Encode series) series).processAfter
            = now + st.offset := rfl
        have hmaps : (st.emitted ++ [mkJob now st.offset (Encode series) series]).map
              Job.processAfter
            = (List.range (st.emitted ++
                [mkJob now st.offset (Encode series) series]).length).map
              (fun i => now + i * queryJobOffsetTime) := by
          simp only [List.map_append, List.length_append, List.length_singleton,
            List.map_cons, List.map_nil, h4, hpa, h3]
          rw [show st.emitted.length + 1 = Nat.succ st.emitted.length from rfl,
            List.range_succ]
          simp [mkJob]
        have hids : st.uniqueSeries ++ [Encode series]
            = (st.emitted ++ [mkJob now st.offset (Encode series) series]).map
                Job.seriesID := by
          simp [h1, hid]
        have hnd : (st.uniqueSeries ++ [Encode series]).Nodup := by
          simp [List.nodup_append, h2, hnotmem]
        have hoff : st.offset + queryJobOffsetTime
            = (st.emitted ++ [mkJob now st.offset (Encode series) series]).length
              * queryJobOffsetTime := by
          simp [h3, Nat.succ_mul]
        cases hemit : emit (mkJob now st.offset (Encode series) series) with
        | none =>
            rw [processSeries_emit_ok now emit st series hl hc hemit]
            refine ⟨hids, hnd, hoff, hmaps, ?_⟩
            intro job hj e he
            rcases List.mem_append.mp hj with hj | hj
            · exact h5 job hj e he
            · rw [List.mem_singleton.mp hj, hemit] at he
              exact absurd he (by simp)
        | some e1 =>
            rw [processSeries_emit_fail now emit st series e1 hl hc hemit]
            refine ⟨hids, hnd, hoff, hmaps, ?_⟩
            intro job hj e he
            rcases List.mem_append.mp hj with hj | hj
            · exact List.mem_append_left _ (h5 job hj e he)
            · rw [List.mem_singleton.mp hj, hemit] at he
              rw [← Option.some.inj he]
              exact List.mem_append_right _ (List.mem_singleton.mpr rfl)

theorem passInv_runSeriesList (now : Nat) (emit : Job → Option String)
    (l : List TimeSeries) (st : PassState) (h : PassInv now emit st) :
    PassInv now emit (runSeriesList now emit st l) := by
  induction l generalizing st with
  | nil => exact h
  | cons s rest ih => exact ih _ (passInv_processSeries now emit st s h)

theorem passInv_runInsights (now : Nat) (emit : Job → Option String)
    (insights : List Insight) (st : PassState) (h : PassInv now emit st) :
    PassInv now emit (runInsights now emit st insights) := by
  induction insights generalizing st with
  | nil => exact h
  | cons i rest ih => exact ih _ (passInv_runSeriesList now emit i.series st h)

theorem passInv_pass (now : Nat) (emit : Job → Option String)
    (insights : List Insight) :
    PassInv now emit (runInsights now emit initState insights) :=
  passInv_runInsights now emit insights initState (passInv_init now emit)

/-! ## Helper lemmas about gauge registration -/

theorem registerQueueGauges_cons (p : String × QueueStore)
    (t : List (String × QueueStore)) :
    registerQueueGauges (p :: t) = newBacklogGauge p.1 p.2 :: registerQueueGauges t := rfl

theorem gauges_filter_nil (queueName : String) (rest : List (String × QueueStore))
    (h : queueName ∉ rest.map Prod.fst) :
    (registerQueueGauges rest).filter (fun g => g.queueLabel == queueName) = [] := by
  induction rest with
  | nil => rfl
  | cons p t ih =>
      simp only [List.map_cons, List.mem_cons, not_or] at h
      obtain ⟨hne, hnot⟩ := h
      rw [registerQueueGauges_cons, List.filter_cons]
      rw [show ((newBacklogGauge p.1 p.2).queueLabel == queueName) = false by
        simp [newBacklogGauge]
        exact fun hh => hne hh.symm]
      simp only [Bool.false_eq_true, if_false]
      exact ih hnot

/-! ## The claims -/

/-- C1, counterexample: on a pass discovering one series where the store's
emit rejects the record with a `DuplicateError`, the returned aggregated
error is exactly that duplicate error — it is included, not treated as
benign; the claim would require the aggregated error to be empty here. -/
theorem c1_duplicate_error_aggregated :
    (discoverAndEnqueueInsights 0 (.ok [⟨"i1", [⟨"a", "q1"⟩]⟩]) emitDup).multi
      = ["DuplicateError"] := by
  decide

/-- C1, amended: `discoverAndEnqueueInsights` appends every non-nil emission
failure to the aggregated error, with no special-casing of duplicate errors:
any error returned by the emit callback for an emitted job appears in the
returned aggregated error list. -/
theorem c1_amended_every_emit_error_aggregated (now : Nat)
    (insights : List Insight) (emit : Job → Option String) (job : Job) (e : String)
    (hjob : job ∈ (discoverAndEnqueueInsights now (.ok insights) emit).emitted)
    (he : emit job = some e) :
    e ∈ (discoverAndEnqueueInsights now (.ok insights) emit).multi :=
  (passInv_pass now emit insights).2.2.2.2 job hjob e he

/-- Witness for the amended C1 at a concrete pass: one discovered series, a
store failing every emit with "enqueue failed"; that error is in the
aggregated error list. -/
theorem c1_amended_every_emit_error_aggregated_witness :
    "enqueue failed" ∈ (discoverAndEnqueueInsights 7
      (.ok [⟨"W", [⟨"w", "qw"⟩]⟩]) emitFailAll).multi :=
  c1_amended_every_emit_error_aggregated 7 [⟨"W", [⟨"w", "qw"⟩]⟩] emitFailAll
    ⟨"s:qw", "qw count:9999999", 7, "queued", 1, 1⟩ "enqueue failed"
    (by decide) rfl

/-- C2, counterexample: the raw queries `lang:go` and `lang:go count:9999999`
normalize to the same string under `withCountUnlimited`, yet the pass assigns
them distinct identities and emits two records — refuting that two series
normalizing identically receive the same identity with at most one record
emitted. -/
theorem c2_distinct_identities_despite_equal_normalization :
    withCountUnlimited "lang:go" = withCountUnlimited "lang:go count:9999999"
    ∧ (discoverAndEnqueueInsights 0 (.ok normalizeCollisionInsights) emitOk).emitted.map
        Job.seriesID = ["s:lang:go", "s:lang:go count:9999999"] := by
  decide

/-- C2, amended: the deduplication identity of a series is computed from the
raw query content, before any normalization: two series receive the same
identity iff their raw queries are exactly equal (`withCountUnlimited` is
applied only to the emitted payload, after the identity is computed). -/
theorem c2_amended_identity_from_raw_query (s₁ s₂ : TimeSeries) :
    Encode s₁ = Encode s₂ ↔ s₁.query = s₂.query := by
  constructor
  · intro h
    have hd : "s:".data ++ s₁.query.data = "s:".data ++ s₂.query.data :=
      congrArg String.data h
    have hdata : s₁.query.data = s₂.query.data := List.append_cancel_left hd
    exact congrArg String.mk hdata
  · intro h
    unfold Encode
    rw [h]

/-- C3: within one pass the jobs passed to emit follow the stride schedule:
the i-th job (0-based, discovery order) carries
`process_after = now + i * queryJobOffsetTime`, the cumulative offset starting
at zero and growing by the fixed 30-second stride per unique series; in
particular a pass discovering 5 unique series assigns
`now, now+30s, now+60s, now+90s, now+120s`. -/
theorem c3_process_after_offset_stride (now : Nat) (insights : List Insight)
    (emit : Job → Option String) :
    (discoverAndEnqueueInsights now (.ok insights) emit).emitted.map Job.processAfter
      = (List.range
          (discoverAndEnqueueInsights now (.ok insights) emit).emitted.length).map
        (fun i => now + i * queryJobOffsetTime)
    ∧ (discoverAndEnqueueInsights 1000 (.ok fiveSeriesInsights) emitOk).emitted.map
        Job.processAfter = [1000, 1030, 1060, 1090, 1120] :=
  ⟨(passInv_pass now emit insights).2.2.2.1, by decide⟩

/-- C4: within a single pass each distinct identity yields at most one emit
call (the emitted identities are pairwise distinct), for every store behavior;
and on the spec's scenario (two insights with different titles owning
content-identical `lang:go` series) exactly one record is emitted, with the
normalized payload `lang:go count:9999999`. -/
theorem c4_at_most_one_emit_per_identity (now : Nat) (insights : List Insight)
    (emit : Job → Option String) :
    ((discoverAndEnqueueInsights now (.ok insights) emit).emitted.map Job.seriesID).Nodup
    ∧ (discoverAndEnqueueInsights 0 (.ok dedupScenarioInsights) emitOk).emitted.map
        Job.searchQuery = ["lang:go count:9999999"] := by
  constructor
  · have h := passInv_pass now emit insights
    have h2 := h.2.1
    rw [h.1] at h2
    exact h2
  · decide

/-- C5, code bug, evaluated at the failing input: two unique series, the emit
for the first fails with "boom"; the stale `err` check at the top of the loop
then appends the old error again and skips the second series entirely, so
only one emit call is made and the pass returns the same failure listed
twice — the claim (and the aggregation intent of the code) requires an emit
attempt for every unique series and each failure listed once. -/
theorem c5_first_emit_failure_skips_remaining :
    (discoverAndEnqueueInsights 0 (.ok twoSeriesInsights) emitFailQ1).emitted.map
        Job.seriesID = ["s:q1"]
    ∧ (discoverAndEnqueueInsights 0 (.ok twoSeriesInsights) emitFailQ1).multi
      = ["boom", "boom"] := by
  decide

/-- C6: when pulling the definitions fails, the pass returns the wrapped
`Discover` error, makes zero emit calls, and aggregates nothing. -/
theorem c6_discover_failure_aborts_pass (now : Nat) (e : String)
    (emit : Job → Option String) :
    discoverAndEnqueueInsights now (.error e) emit
      = { wrapped := some ("Discover: " ++ e), emitted := [], multi := [] } := rfl

/-- C7, counterexample: on the input `count: count:` (which contains
`count:`) the function returns its argument unchanged, and the directive
occurs twice, not exactly once, in the normalized query. -/
theorem c7_count_directive_not_exactly_once :
    withCountUnlimited "count: count:" = "count: count:"
    ∧ occurrenceCount (withCountUnlimited "count: count:") "count:" ≠ 1 := by
  decide

/-- C7, amended: `withCountUnlimited` returns `s` unchanged when `s` contains
the substring `count:` and otherwise returns `s` with ` count:9999999`
appended, guaranteeing the directive is present at least once (not exactly
once) in the normalized query; in particular `lang:go` normalizes to
`lang:go count:9999999`. -/
theorem c7_amended_normalization_behavior (s : String) :
    withCountUnlimited s = (if goContains s "count:" then s else s ++ " count:9999999")
    ∧ goContains (withCountUnlimited s) "count:" = true
    ∧ withCountUnlimited "lang:go" = "lang:go count:9999999" :=
  ⟨rfl, contains_withCountUnlimited s, by decide⟩

/-- C8: for every configured queue name (queue names are map keys, hence
pairwise distinct) exactly one backlog gauge labeled with that queue name is
registered, and its sampling function returns the count obtained from that
queue's store `QueuedCount` as the gauge value. -/
theorem c8_one_backlog_gauge_per_queue (queueOptions : List (String × QueueStore))
    (queueName : String) (store : QueueStore)
    (hnodup : (queueOptions.map Prod.fst).Nodup)
    (hmem : (queueName, store) ∈ queueOptions) :
    (registerQueueGauges queueOptions).filter (fun g => g.queueLabel == queueName)
        = [newBacklogGauge queueName store]
      ∧ (sampleBacklogGauge (newBacklogGauge queueName store)).1
        = (queuedCount store).1 := by
  constructor
  · induction queueOptions with
    | nil => cases hmem
    | cons p t ih =>
        simp only [List.map_cons, List.nodup_cons] at hnodup
        obtain ⟨hhead, htail⟩ := hnodup
        rcases List.mem_cons.mp hmem with heq | hmem2
        · subst heq
          rw [registerQueueGauges_cons, List.filter_cons]
          rw [show ((newBacklogGauge queueName store).queueLabel == queueName) = true by
            simp [newBacklogGauge]]
          rw [if_pos rfl, gauges_filter_nil queueName t hhead]
        · have hqn : queueName ∈ t.map Prod.fst :=
            List.mem_map.mpr ⟨(queueName, store), hmem2, rfl⟩
          have hne : p.1 ≠ queueName := fun hh => hhead (hh ▸ hqn)
          rw [registerQueueGauges_cons, List.filter_cons]
          rw [show ((newBacklogGauge p.1 p.2).queueLabel == queueName) = false by
            simp [newBacklogGauge]
            exact hne]
          simp only [Bool.false_eq_true, if_false]
          exact ih htail hmem2
  · obtain ⟨⟨c, err⟩⟩ := store
    cases err <;> rfl

/-- Witness for C8 at the concrete two-queue configuration of `main.go`
(codeintel and batches). -/
theorem c8_one_backlog_gauge_per_queue_witness :
    (registerQueueGauges [("codeintel", ⟨(3, none)⟩), ("batches", ⟨(0, none)⟩)]).filter
        (fun g => g.queueLabel == "codeintel")
        = [newBacklogGauge "codeintel" ⟨(3, none)⟩]
      ∧ (sampleBacklogGauge (newBacklogGauge "codeintel" ⟨(3, none)⟩)).1
        = (queuedCount ⟨(3, none)⟩).1 :=
  c8_one_backlog_gauge_per_queue
    [("codeintel", ⟨(3, none)⟩), ("batches", ⟨(0, none)⟩)] "codeintel" ⟨(3, none)⟩
    (by decide) (by decide)

/-- C9: `withCountUnlimited` is idempotent, since its output always contains
the substring `count:`. -/
theorem c9_with_count_unlimited_idempotent (s : String) :
    withCountUnlimited (withCountUnlimited s) = withCountUnlimited s :=
  withCountUnlimited_of_contains _ (contains_withCountUnlimited s)

/-- C10: the gauge's sampling function never propagates a store failure:
whenever `QueuedCount` returns an error alongside a count, the function
emits a log line carrying the error and returns the count (the Go zero value
`0` for a failing store) as the gauge value instead of failing the scrape. -/
theorem c10_gauge_returns_count_on_error (queueName : String) (store : QueueStore)
    (count : Int) (e : String) (h : queuedCount store = (count, some e)) :
    sampleBacklogGauge (newBacklogGauge queueName store)
      = (count, ["Failed to get queued job count queue=" ++ queueName
          ++ " error=" ++ e]) := by
  unfold sampleBacklogGauge
  rw [show queuedCount (newBacklogGauge queueName store).store
      = queuedCount store from rfl, h]
  rfl

/-- Witness for C10 at a concrete failing store: the scrape yields the value
0 and a log line, no failure. -/
theorem c10_gauge_returns_count_on_error_witness :
    sampleBacklogGauge (newBacklogGauge "batches" ⟨(0, some "connection refused")⟩)
      = (0, ["Failed to get queued job count queue=" ++ "batches"
          ++ " error=" ++ "connection refused"]) :=
  c10_gauge_returns_count_on_error "batches" ⟨(0, some "connection refused")⟩ 0
    "connection refused" rfl

end SG
